import Mathlib

/-
Verification of the basic-block / CFG layer of the nku-compiler-2024-rs IR
(`src/ir/block.rs`), as a shallow embedding in Lean 4.

The embedding models the arena-backed IR context as explicit finite maps from
slot indices to node payloads.  Operations that in Rust take `&mut Context`
become state-passing functions; a Rust `panic!` / `expect` / `unwrap` is
modelled by the `Res.fatal` outcome, carrying the panic message and the state
of the context at the moment of the panic (what an observer of the arena
would see after unwinding).  Code of the repository that is not part of
`src/ir/block.rs` (the arena primitives, the generic linked-list contract and
the instruction entity) is modelled from the specification document; each
such definition is marked `Modelled from the spec:` in its doc comment.
-/

set_option autoImplicit false

namespace NkuIr

/-- Handle into the block arena (models `Block(GenericPtr<BlockData>)`). -/
structure Block where
  idx : Nat
deriving DecidableEq, Repr

/-- Handle into the instruction arena (models `Inst`). -/
structure Inst where
  idx : Nat
deriving DecidableEq, Repr

/-- Handle into the function arena (models `Func`). -/
structure Func where
  idx : Nat
deriving DecidableEq, Repr

/-- Modelled from the spec: the closed tagged-variant view of instruction
opcodes relevant to CFG edges (§9): unconditional branch `Br`, two-way
conditional branch `CondBr`, and everything else collapsed into `Other`.
The real `InstKind` lives in `src/ir/inst.rs`, which is not part of the
provided sources. -/
inductive InstKind where
  | Br
  | CondBr
  | Other
deriving DecidableEq, Repr

/-- A successor edge `(to, inst, is_true_branch)`; models `BlockEdge`.
Equality and hashing cover all three fields (the Rust type derives
`PartialEq, Eq, Hash`).  The target field is named `toB` because `to` is
reserved in Lean. -/
structure BlockEdge where
  toB : Block
  inst : Inst
  true_br : Bool
deriving DecidableEq, Repr

/-- Modelled from the spec: the payload of an instruction node, restricted to
what the CFG layer consumes (§6): its opcode kind, its successor-block
operands, and its intrusive linked-list fields (node role of §4.2).  The real
`InstData` lives in `src/ir/inst.rs`, which is not part of the provided
sources. -/
structure InstData where
  kind : InstKind
  succs : List Block
  next : Option Inst
  prev : Option Inst
  container : Option Block
deriving DecidableEq, Repr

/-- The payload of a block node; models `BlockData` from `src/ir/block.rs`.
`users` is kept abstract as a set of opaque user identifiers. -/
structure BlockData where
  users : Finset Nat
  next : Option Block
  prev : Option Block
  successors : Finset BlockEdge
  head : Option Inst
  tail : Option Inst
  container : Option Func

/-- Modelled from the spec: the payload of a function node, restricted to its
container role for the block list (§4.2).  The real `FuncData` lives in
`src/ir/func.rs`, which is not part of the provided sources. -/
structure FuncData where
  head : Option Block
  tail : Option Block

/-- The IR context owning all arenas.  Each arena is a map from slot index to
an optional payload (`none` = absent/deallocated slot); `nextBlock` /
`nextInst` are the next fresh indices handed out by allocation.  Models
`Context` (in `src/ir/context.rs`, not part of the provided sources) as
described by the spec (§4.1, §9). -/
structure Context where
  blocks : Nat → Option BlockData
  insts : Nat → Option InstData
  funcs : Nat → Option FuncData
  nextBlock : Nat
  nextInst : Nat

/-- Point update of an arena map. -/
def upd {α : Type} (f : Nat → Option α) (k : Nat) (v : Option α) : Nat → Option α :=
  fun n => if n = k then v else f n

@[simp]
theorem upd_same {α : Type} (f : Nat → Option α) (k : Nat) (v : Option α) :
    upd f k v k = v := by
  simp [upd]

theorem upd_ne {α : Type} (f : Nat → Option α) (k : Nat) (v : Option α)
    (n : Nat) (h : n ≠ k) : upd f k v n = f n := by
  simp [upd, h]

/-- Outcome of an IR operation: `ok st a` is normal return with result `a`
and post-state `st`; `fatal msg st` models a Rust `panic!` (including
`expect`/`unwrap` failures) with the panic message and the arena state at the
moment of the panic. -/
inductive Res (α : Type) : Type where
  | ok : Context → α → Res α
  | fatal : String → Context → Res α

/-- Sequencing of IR operations, propagating panics. -/
def Res.bind {α β : Type} : Res α → (Context → α → Res β) → Res β
  | .ok st a, f => f st a
  | .fatal m st, _ => .fatal m st

@[simp]
theorem Res.bind_ok {α β : Type} (st : Context) (a : α) (f : Context → α → Res β) :
    Res.bind (.ok st a) f = f st a := rfl

@[simp]
theorem Res.bind_fatal {α β : Type} (m : String) (st : Context) (f : Context → α → Res β) :
    Res.bind (.fatal m st) f = .fatal m st := rfl

/-- True when the operation returned normally. -/
def Res.isOk {α : Type} : Res α → Bool
  | .ok _ _ => true
  | .fatal _ _ => false

/-- True when the operation panicked (terminated the process). -/
def Res.terminated {α : Type} : Res α → Bool
  | .ok _ _ => false
  | .fatal _ _ => true

/-! ### Arena primitives (spec-modelled, §4.1) -/

/-- Modelled from the spec: `Arena<Block>::try_dealloc` (the `block.rs` impl
delegates to `self.blocks.try_dealloc`, whose code in `src/infra/storage.rs`
is not part of the provided sources): remove and return the payload, or
return `none` when the slot is already absent (double-deallocation is a
defined no-op, §4.1). -/
def Context.tryDeallocBlock (st : Context) (b : Block) : Context × Option BlockData :=
  match st.blocks b.idx with
  | some d => ({ st with blocks := upd st.blocks b.idx none }, some d)
  | none => (st, none)

/-- Modelled from the spec: `Arena<Inst>::try_dealloc`, same contract as for
blocks (the instruction arena lives outside the provided sources). -/
def Context.tryDeallocInst (st : Context) (i : Inst) : Context × Option InstData :=
  match st.insts i.idx with
  | some d => ({ st with insts := upd st.insts i.idx none }, some d)
  | none => (st, none)

/-! ### Accessors

The `Block` accessors translate the `LinkedListContainer<Inst> for Block` and
`LinkedListNode for Block` impls in `src/ir/block.rs`: each is
`try_deref(ctx).expect("invalid pointer")` resp. `try_deref_mut`. -/

/-- `Block::head` (`try_deref(ctx).expect("invalid pointer").head`). -/
def Block.headE (st : Context) (b : Block) : Res (Option Inst) :=
  match st.blocks b.idx with
  | some d => .ok st d.head
  | none => .fatal "invalid pointer" st

/-- `Block::tail`. -/
def Block.tailE (st : Context) (b : Block) : Res (Option Inst) :=
  match st.blocks b.idx with
  | some d => .ok st d.tail
  | none => .fatal "invalid pointer" st

/-- `Block::set_head`. -/
def Block.setHead (st : Context) (b : Block) (v : Option Inst) : Res Unit :=
  match st.blocks b.idx with
  | some d => .ok { st with blocks := upd st.blocks b.idx (some { d with head := v }) } ()
  | none => .fatal "invalid pointer" st

/-- `Block::set_tail`. -/
def Block.setTail (st : Context) (b : Block) (v : Option Inst) : Res Unit :=
  match st.blocks b.idx with
  | some d => .ok { st with blocks := upd st.blocks b.idx (some { d with tail := v }) } ()
  | none => .fatal "invalid pointer" st

/-- `Block::container` (node role). -/
def Block.containerE (st : Context) (b : Block) : Res (Option Func) :=
  match st.blocks b.idx with
  | some d => .ok st d.container
  | none => .fatal "invalid pointer" st

/-- Modelled from the spec: the instruction-side node accessors
(`Inst::next`, node role of the linked-list contract §4.2); like the block
side they fail with an invalid-pointer panic on an absent slot. -/
def Inst.nextE (st : Context) (i : Inst) : Res (Option Inst) :=
  match st.insts i.idx with
  | some d => .ok st d.next
  | none => .fatal "invalid pointer" st

/-- Modelled from the spec: `Inst::prev`. -/
def Inst.prevE (st : Context) (i : Inst) : Res (Option Inst) :=
  match st.insts i.idx with
  | some d => .ok st d.prev
  | none => .fatal "invalid pointer" st

/-- Modelled from the spec: `Inst::container`. -/
def Inst.containerE (st : Context) (i : Inst) : Res (Option Block) :=
  match st.insts i.idx with
  | some d => .ok st d.container
  | none => .fatal "invalid pointer" st

/-- Modelled from the spec: `Inst::set_next`. -/
def Inst.setNext (st : Context) (i : Inst) (v : Option Inst) : Res Unit :=
  match st.insts i.idx with
  | some d => .ok { st with insts := upd st.insts i.idx (some { d with next := v }) } ()
  | none => .fatal "invalid pointer" st

/-- Modelled from the spec: `Inst::set_prev`. -/
def Inst.setPrev (st : Context) (i : Inst) (v : Option Inst) : Res Unit :=
  match st.insts i.idx with
  | some d => .ok { st with insts := upd st.insts i.idx (some { d with prev := v }) } ()
  | none => .fatal "invalid pointer" st

/-- Modelled from the spec: `Inst::kind` — the opcode query consumed from the
instruction entity (§6), reading the instruction's payload. -/
def Inst.kindE (st : Context) (i : Inst) : Res InstKind :=
  match st.insts i.idx with
  | some d => .ok st d.kind
  | none => .fatal "invalid pointer" st

/-- Modelled from the spec: `Inst::successor(ctx, k)` — operand access
reading the k-th successor-block operand of a branch instruction (§6). -/
def Inst.successorE (st : Context) (i : Inst) (k : Nat) : Res Block :=
  match st.insts i.idx with
  | some d =>
    match d.succs.get? k with
    | some blk => .ok st blk
    | none => .fatal "successor index out of range" st
  | none => .fatal "invalid pointer" st

/-! ### Operations of `src/ir/block.rs` and their spec-modelled collaborators -/

/-- `Block::new(ctx)`: `ctx.alloc_with` of a `BlockData` with every field
empty/unset (`src/ir/block.rs:44-55`); allocation hands out the next fresh
slot index. -/
def Block.new (st : Context) : Context × Block :=
  ({ st with
      blocks := upd st.blocks st.nextBlock
        (some { users := ∅, next := none, prev := none, successors := ∅,
                head := none, tail := none, container := none }),
      nextBlock := st.nextBlock + 1 },
   ⟨st.nextBlock⟩)

/-- Modelled from the spec: `Func::remove_block` — the container-level
operation that detaches a block from the function's block list and destroys
it (§4.4 `remove`, §6); its code in `src/ir/func.rs` is not part of the
provided sources.  Modelled as: fix the function's head/tail if the block was
an endpoint, relink the block's sibling neighbors, then deallocate the
block's slot. -/
def Func.removeBlock (st : Context) (f : Func) (b : Block) : Res Unit :=
  match st.funcs f.idx with
  | none => .fatal "invalid pointer" st
  | some fd =>
    match st.blocks b.idx with
    | none => .fatal "invalid pointer" st
    | some bd =>
      let fd1 : FuncData :=
        { head := if fd.head = some b then bd.next else fd.head,
          tail := if fd.tail = some b then bd.prev else fd.tail }
      let st1 : Context := { st with funcs := upd st.funcs f.idx (some fd1) }
      let st2 : Context :=
        match bd.prev with
        | some p =>
          match st1.blocks p.idx with
          | some pd => { st1 with blocks := upd st1.blocks p.idx (some { pd with next := bd.next }) }
          | none => st1
        | none => st1
      let st3 : Context :=
        match bd.next with
        | some n =>
          match st2.blocks n.idx with
          | some nd => { st2 with blocks := upd st2.blocks n.idx (some { nd with prev := bd.prev }) }
          | none => st2
        | none => st2
      .ok (st3.tryDeallocBlock b).1 ()

/-- `Block::remove(ctx, edges)` (`src/ir/block.rs:68-71`): reads the owning
function via `self.container(ctx).unwrap()` — panicking when the block is
unattached — and delegates to `container.remove_block`.  The `edges`
parameter is never used by the body. -/
def Block.remove (st : Context) (b : Block) (_edges : List BlockEdge) : Res Unit :=
  Res.bind (Block.containerE st b) fun st oc =>
  match oc with
  | some f => Func.removeBlock st f b
  | none => .fatal "called Option::unwrap() on a None value" st

/-- `Block::remove_inst(ctx, inst)` (`src/ir/block.rs:74-99`): update head
(resp. tail) if `inst` is the first (resp. last) instruction, relink the two
neighbors, then `ctx.try_dealloc(inst)` (whose result is dropped).  No
membership check is performed. -/
def Block.removeInst (st : Context) (b : Block) (i : Inst) : Res Unit :=
  Res.bind (Block.headE st b) fun st hd =>
  Res.bind (Block.tailE st b) fun st tl =>
  Res.bind
    (if hd = some i then
      Res.bind (Inst.nextE st i) fun st h2 => Block.setHead st b h2
    else .ok st ()) fun st _ =>
  Res.bind
    (if tl = some i then
      Res.bind (Inst.prevE st i) fun st t2 => Block.setTail st b t2
    else .ok st ()) fun st _ =>
  Res.bind (Inst.prevE st i) fun st pr =>
  Res.bind (Inst.nextE st i) fun st nx =>
  Res.bind
    (match pr with
     | some p => Inst.setNext st p nx
     | none => .ok st ()) fun st _ =>
  Res.bind
    (match nx with
     | some n => Inst.setPrev st n pr
     | none => .ok st ()) fun st _ =>
  .ok (st.tryDeallocInst i).1 ()

/-- `self.deref_mut(ctx).successors.insert(edge)` as used by
`Block::add_successor`; dereferencing an absent block slot is an
invalid-pointer panic (§4.1). -/
def Block.insertEdge (st : Context) (b : Block) (e : BlockEdge) : Res Unit :=
  match st.blocks b.idx with
  | some d =>
    .ok { st with blocks := upd st.blocks b.idx (some { d with successors := insert e d.successors }) } ()
  | none => .fatal "invalid pointer" st

/-- `self.deref_mut(ctx).successors.remove(&edge)` as used by
`Block::remove_successor`. -/
def Block.eraseEdge (st : Context) (b : Block) (e : BlockEdge) : Res Unit :=
  match st.blocks b.idx with
  | some d =>
    .ok { st with blocks := upd st.blocks b.idx (some { d with successors := d.successors.erase e }) } ()
  | none => .fatal "invalid pointer" st

/-- `Block::add_successor(ctx, successor, inst, true_br)`
(`src/ir/block.rs:104-113`): dispatch on the terminator's opcode; `Br`
records `(successor, inst, false)`, `CondBr` records
`(successor, inst, true_br)`, anything else panics with "unavailble br". -/
def Block.addSuccessor (st : Context) (b : Block) (succ : Block) (i : Inst)
    (true_br : Bool) : Res Unit :=
  Res.bind (Inst.kindE st i) fun st k =>
  match k with
  | .Br => Block.insertEdge st b ⟨succ, i, false⟩
  | .CondBr => Block.insertEdge st b ⟨succ, i, true_br⟩
  | .Other => .fatal "unavailble br" st

/-- Modelled from the spec: `Inst::br(ctx, target)` — the factory for new
unconditional-branch instructions consumed from the instruction entity (§6);
allocates a fresh, unattached instruction whose single successor operand is
`target`. -/
def Inst.br (st : Context) (target : Block) : Context × Inst :=
  ({ st with
      insts := upd st.insts st.nextInst
        (some { kind := .Br, succs := [target], next := none, prev := none,
                container := none }),
      nextInst := st.nextInst + 1 },
   ⟨st.nextInst⟩)

/-- Modelled from the spec: `Inst::insert_after(ctx, new_inst)` followed by
the call site's `.unwrap()` — the linked-list derived operation of §4.2:
splice `n` immediately after `r` inside `r`'s container, updating the
container's tail when `r` was the last node and the old successor's `prev`
otherwise.  Calling it on a node with no container is the error the call
site unwraps. -/
def Inst.insertAfter (st : Context) (r : Inst) (n : Inst) : Res Unit :=
  match st.insts r.idx with
  | none => .fatal "invalid pointer" st
  | some dr =>
    match dr.container with
    | none => .fatal "called Result::unwrap() on an Err value" st
    | some blk =>
      match st.insts n.idx with
      | none => .fatal "invalid pointer" st
      | some dn =>
        let dn1 : InstData := { dn with prev := some r, next := dr.next, container := some blk }
        let st1 : Context := { st with insts := upd st.insts n.idx (some dn1) }
        let st2 : Context :=
          { st1 with insts := upd st1.insts r.idx (some { dr with next := some n }) }
        match dr.next with
        | some f =>
          match st2.insts f.idx with
          | some df =>
            .ok { st2 with insts := upd st2.insts f.idx (some { df with prev := some n } ) } ()
          | none => .fatal "invalid pointer" st2
        | none =>
          match st2.blocks blk.idx with
          | some bd =>
            .ok { st2 with blocks := upd st2.blocks blk.idx (some { bd with tail := some n }) } ()
          | none => .fatal "invalid pointer" st2

/-- Modelled from the spec: `Inst::remove(ctx)` — unlink the instruction from
its container's list and deallocate its slot (§4.2 `unlink`, §4.4 step (e)).
Unlinking from a container is exactly the containment-side update performed
by `Block::remove_inst`; an unattached instruction is simply deallocated. -/
def Inst.remove (st : Context) (i : Inst) : Res Unit :=
  Res.bind (Inst.containerE st i) fun st oc =>
  match oc with
  | some blk => Block.removeInst st blk i
  | none => .ok (st.tryDeallocInst i).1 ()

/-- `Block::remove_successor(ctx, successor, inst, true_br)`
(`src/ir/block.rs:115-148`).  `Br`: delete the terminator, then remove the
edge `(successor, inst, false)`.  `CondBr`: read the surviving arm's target
from the other operand, remove both recorded edges, synthesize a new
unconditional branch to the survivor, splice it in right after `inst`,
delete `inst`, and register the single new edge.  Other opcodes panic. -/
def Block.removeSuccessor (st : Context) (b : Block) (succ : Block) (i : Inst)
    (true_br : Bool) : Res Unit :=
  Res.bind (Inst.kindE st i) fun st k =>
  match k with
  | .Br =>
    Res.bind (Inst.remove st i) fun st _ =>
    Block.eraseEdge st b ⟨succ, i, false⟩
  | .CondBr =>
    Res.bind (Inst.successorE st i (if true_br then 1 else 0)) fun st newSucc =>
    Res.bind (Block.eraseEdge st b ⟨succ, i, true_br⟩) fun st _ =>
    Res.bind (Block.eraseEdge st b ⟨newSucc, i, !true_br⟩) fun st _ =>
    let p := Inst.br st newSucc
    Res.bind (Inst.insertAfter p.1 i p.2) fun st _ =>
    Res.bind (Inst.remove st i) fun st _ =>
    Block.addSuccessor st b newSucc p.2 false
  | .Other => .fatal "unavailble br" st

/-- `Block::clear_successors(ctx)` (`src/ir/block.rs:150-152`). -/
def Block.clearSuccessors (st : Context) (b : Block) : Res Unit :=
  match st.blocks b.idx with
  | some d =>
    .ok { st with blocks := upd st.blocks b.idx (some { d with successors := ∅ }) } ()
  | none => .fatal "invalid pointer" st

/-! ### The doubly-linked-list invariant

`seg m b pr cur L pr2 cur2` says: starting from the pointer `cur`, whose
predecessor pointer is `pr`, the instruction map `m` chains exactly through
the instructions of `L` (each present, with correct `prev` back-pointer and
`container = b`), leaving the successor pointer `cur2` and predecessor
pointer `pr2` after the segment.  `wf st b L` is the spec's list invariant
(§8): the block's head starts a chain through exactly `L`, ending at `none`,
the block's tail is `L`'s last element, and `L` has no duplicates — walking
forward and backward yield exact reverses of each other. -/

def seg (m : Nat → Option InstData) (b : Block) :
    Option Inst → Option Inst → List Inst → Option Inst → Option Inst → Prop
  | pr, cur, [], pr2, cur2 => pr = pr2 ∧ cur = cur2
  | pr, cur, i :: rest, pr2, cur2 =>
      cur = some i ∧ ∃ d, m i.idx = some d ∧ d.prev = pr ∧ d.container = some b ∧
        seg m b (some i) d.next rest pr2 cur2

@[simp]
theorem seg_nil {m : Nat → Option InstData} {b : Block} {pr cur pr2 cur2 : Option Inst} :
    seg m b pr cur [] pr2 cur2 ↔ (pr = pr2 ∧ cur = cur2) := Iff.rfl

@[simp]
theorem seg_cons {m : Nat → Option InstData} {b : Block} {i : Inst} {L : List Inst}
    {pr cur pr2 cur2 : Option Inst} :
    seg m b pr cur (i :: L) pr2 cur2 ↔
      (cur = some i ∧ ∃ d, m i.idx = some d ∧ d.prev = pr ∧ d.container = some b ∧
        seg m b (some i) d.next L pr2 cur2) := Iff.rfl

/-- The full list invariant for block `b` and instruction sequence `L`. -/
def wf (st : Context) (b : Block) (L : List Inst) : Prop :=
  ∃ bd pr2, st.blocks b.idx = some bd ∧
    seg st.insts b none bd.head L pr2 none ∧ bd.tail = pr2 ∧ L.Nodup

theorem Inst.idx_ne {i j : Inst} (h : i ≠ j) : i.idx ≠ j.idx := by
  intro he
  exact h (by cases i; cases j; cases he; rfl)

theorem upd_upd {α : Type} (f : Nat → Option α) (k : Nat) (v w : Option α) :
    upd (upd f k v) k w = upd f k w := by
  funext n
  by_cases h : n = k <;> simp [upd, h]

theorem mem_of_getLast?Eq {α : Type} {l : List α} {x : α} (h : l.getLast? = some x) :
    x ∈ l := by
  have hx : x ∈ l.getLast? := by simp [h, Option.mem_def]
  obtain ⟨hne, he⟩ := List.mem_getLast?_eq_getLast hx
  subst he
  exact List.getLast_mem hne

theorem seg_append {m : Nat → Option InstData} {b : Block} :
    ∀ (A : List Inst) (C : List Inst) (pr cur pr2 cur2 : Option Inst),
      seg m b pr cur (A ++ C) pr2 cur2 ↔
        ∃ pm cm, seg m b pr cur A pm cm ∧ seg m b pm cm C pr2 cur2 := by
  intro A
  induction A with
  | nil =>
    intro C pr cur pr2 cur2
    constructor
    · intro h
      exact ⟨pr, cur, ⟨rfl, rfl⟩, h⟩
    · rintro ⟨pm, cm, ⟨h1, h2⟩, h⟩
      cases h1; cases h2; exact h
  | cons i rest ih =>
    intro C pr cur pr2 cur2
    simp only [List.cons_append, seg_cons, ih]
    constructor
    · rintro ⟨hc, d, hd, hp, hco, pm, cm, h1, h2⟩
      exact ⟨pm, cm, ⟨hc, d, hd, hp, hco, h1⟩, h2⟩
    · rintro ⟨pm, cm, ⟨hc, d, hd, hp, hco, h1⟩, h2⟩
      exact ⟨hc, d, hd, hp, hco, pm, cm, h1, h2⟩

theorem seg_valid {m : Nat → Option InstData} {b : Block} :
    ∀ {L : List Inst} {pr cur pr2 cur2 : Option Inst},
      seg m b pr cur L pr2 cur2 →
      ∀ i ∈ L, ∃ d, m i.idx = some d ∧ d.container = some b := by
  intro L
  induction L with
  | nil =>
    intro pr cur pr2 cur2 _ i hi
    simp at hi
  | cons j rest ih =>
    rintro pr cur pr2 cur2 ⟨hc, d, hd, hp, hco, hs⟩ i hi
    rcases List.mem_cons.mp hi with rfl | hi
    · exact ⟨d, hd, hco⟩
    · exact ih hs i hi

theorem seg_frame {m m' : Nat → Option InstData} {b : Block} :
    ∀ {L : List Inst} {pr cur pr2 cur2 : Option Inst},
      (∀ i ∈ L, m' i.idx = m i.idx) →
      seg m b pr cur L pr2 cur2 → seg m' b pr cur L pr2 cur2 := by
  intro L
  induction L with
  | nil =>
    intro pr cur pr2 cur2 _ h
    exact h
  | cons j rest ih =>
    rintro pr cur pr2 cur2 hagree ⟨hc, d, hd, hp, hco, hs⟩
    refine ⟨hc, d, ?_, hp, hco, ?_⟩
    · rw [hagree j (List.mem_cons_self j rest)]; exact hd
    · exact ih (fun i hi => hagree i (List.mem_cons_of_mem j hi)) hs

theorem seg_exit {m : Nat → Option InstData} {b : Block} :
    ∀ {L : List Inst} {pr cur pr2 cur2 : Option Inst},
      seg m b pr cur L pr2 cur2 → pr2 = L.getLast?.or pr := by
  intro L
  induction L with
  | nil =>
    rintro pr cur pr2 cur2 ⟨h1, _⟩
    simp [h1.symm]
  | cons j rest ih =>
    rintro pr cur pr2 cur2 ⟨hc, d, hd, hp, hco, hs⟩
    have h := ih hs
    cases rest with
    | nil =>
      simp at h
      simp [h]
    | cons r rest' =>
      have hne : (r :: rest').getLast? ≠ none := by
        simp [List.getLast?_eq_none_iff]
      obtain ⟨y, hy⟩ : ∃ y, (r :: rest').getLast? = some y := by
        cases hz : (r :: rest').getLast? with
        | none => exact absurd hz hne
        | some y => exact ⟨y, rfl⟩
      rw [List.getLast?_cons_cons, hy]
      rw [hy] at h
      simpa [Option.or] using h

theorem seg_exit_root {m : Nat → Option InstData} {b : Block}
    {L : List Inst} {cur pr2 cur2 : Option Inst}
    (h : seg m b none cur L pr2 cur2) : pr2 = L.getLast? := by
  have := seg_exit h
  simpa using this

theorem seg_entry {m : Nat → Option InstData} {b : Block}
    {L : List Inst} {pr cur pr2 : Option Inst}
    (h : seg m b pr cur L pr2 none) : cur = L.head? := by
  cases L with
  | nil => exact h.2
  | cons j rest => exact h.1

theorem seg_set_last_next {m : Nat → Option InstData} {b : Block} :
    ∀ (A : List Inst) {p : Inst} {dp : InstData} {v pr cur pr2 cur2 : Option Inst},
      A.Nodup → A.getLast? = some p → m p.idx = some dp →
      seg m b pr cur A pr2 cur2 →
      seg (upd m p.idx (some { dp with next := v })) b pr cur A pr2 v := by
  intro A
  induction A with
  | nil =>
    intro p dp v pr cur pr2 cur2 _ hlast _ _
    simp at hlast
  | cons j rest ih =>
    intro p dp v pr cur pr2 cur2 hnd hlast hdp h
    obtain ⟨hc, d, hd, hp, hco, hs⟩ := h
    cases rest with
    | nil =>
      have hpj : p = j := by simpa using hlast.symm
      subst hpj
      have hdd : d = dp := by
        rw [hd] at hdp; exact (Option.some.injEq _ _).mp hdp
      subst hdd
      obtain ⟨he1, _⟩ := hs
      exact ⟨hc, { d with next := v }, by simp, hp, hco, he1, rfl⟩
    | cons r rest' =>
      have hlast' : (r :: rest').getLast? = some p := by
        rw [← hlast, List.getLast?_cons_cons]
      have hpmem : p ∈ r :: rest' := mem_of_getLast?Eq hlast'
      have hjne : j ≠ p := by
        intro he
        subst he
        exact (List.nodup_cons.mp hnd).1 hpmem
      refine ⟨hc, d, ?_, hp, hco, ?_⟩
      · rw [upd_ne _ _ _ _ (Inst.idx_ne hjne)]; exact hd
      · exact ih (List.nodup_cons.mp hnd).2 hlast' hdp hs

theorem seg_set_head_prev {m : Nat → Option InstData} {b : Block}
    {n : Inst} {C : List Inst} {dn : InstData} {w pr pr2 cur2 : Option Inst}
    (hnd : (n :: C).Nodup) (hdn : m n.idx = some dn)
    (hs : seg m b pr (some n) (n :: C) pr2 cur2) :
    seg (upd m n.idx (some { dn with prev := w })) b w (some n) (n :: C) pr2 cur2 := by
  obtain ⟨-, d, hd, hp, hco, hrest⟩ := hs
  have hdd : d = dn := by
    rw [hd] at hdn; exact (Option.some.injEq _ _).mp hdn
  subst hdd
  refine ⟨rfl, { d with prev := w }, by simp, rfl, hco, ?_⟩
  refine seg_frame (fun i hi => ?_) hrest
  have hin : i ≠ n := by
    intro he
    subst he
    exact (List.nodup_cons.mp hnd).1 hi
  exact upd_ne _ _ _ _ (Inst.idx_ne hin)

/-! ### Symbolic-execution lemma for `Block::remove_inst` -/

theorem instRemove_eq {st : Context} {i : Inst} {di : InstData} {b : Block}
    (h : st.insts i.idx = some di) (hc : di.container = some b) :
    Inst.remove st i = Block.removeInst st b i := by
  simp [Inst.remove, Inst.containerE, h, hc]

/-- Complete description of a successful `Block::remove_inst` on an
instruction that belongs to the block's list: the run succeeds, the block's
head/tail become those of the shortened list, the removed instruction's slot
is deallocated, its two neighbors are relinked to each other, everything else
is untouched, and the list invariant holds for `A ++ C`. -/
theorem removeInst_run (st : Context) (b : Block) (i : Inst) (A C : List Inst)
    (bd : BlockData) (pr2 : Option Inst)
    (hb : st.blocks b.idx = some bd)
    (hseg : seg st.insts b none bd.head (A ++ i :: C) pr2 none)
    (htail : bd.tail = pr2)
    (hnd : (A ++ i :: C).Nodup) :
    ∃ st',
      Block.removeInst st b i = .ok st' () ∧
      st'.blocks b.idx = some { bd with head := (A ++ C).head?, tail := (A ++ C).getLast? } ∧
      (∀ k, k ≠ b.idx → st'.blocks k = st.blocks k) ∧
      st'.insts i.idx = none ∧
      (∀ p dp, A.getLast? = some p → st.insts p.idx = some dp →
        st'.insts p.idx = some { dp with next := C.head? }) ∧
      (∀ n dn, C.head? = some n → st.insts n.idx = some dn →
        st'.insts n.idx = some { dn with prev := A.getLast? }) ∧
      (∀ k, k ≠ i.idx → (∀ p, A.getLast? = some p → k ≠ p.idx) →
        (∀ n, C.head? = some n → k ≠ n.idx) → st'.insts k = st.insts k) ∧
      st'.funcs = st.funcs ∧
      wf st' b (A ++ C) := by
  -- decompose the segment at `i`
  obtain ⟨pm, cm, hA, hIC⟩ := (seg_append A (i :: C) none bd.head pr2 none).mp hseg
  obtain ⟨hcm, di, hdi, hdiprev, hdicont, hsegC⟩ := hIC
  have hpm : pm = A.getLast? := by
    have := seg_exit hA
    simpa using this
  have hdinext : di.next = C.head? := seg_entry hsegC
  -- nodup decomposition
  have hndA : A.Nodup := (List.nodup_append.mp hnd).1
  have hndIC : (i :: C).Nodup := (List.nodup_append.mp hnd).2.1
  have hdisj : List.Disjoint A (i :: C) := (List.nodup_append.mp hnd).2.2
  have hiA : i ∉ A := fun hmem => hdisj hmem (List.mem_cons_self i C)
  have hiC : i ∉ C := (List.nodup_cons.mp hndIC).1
  have hndC : C.Nodup := (List.nodup_cons.mp hndIC).2
  have htail2 : bd.tail = (A ++ i :: C).getLast? := by
    rw [htail, seg_exit_root hseg]
  have hndAC : (A ++ C).Nodup :=
    hnd.sublist ((List.sublist_cons_self i C).append_left A)
  rcases A with _ | ⟨a0, A'⟩
  · -- A = []
    rw [seg_nil] at hA
    obtain ⟨hpmnil, hcm2⟩ := hA
    have hh : bd.head = some i := by rw [hcm2, hcm]
    have hprevnone : di.prev = none := by rw [hdiprev, ← hpmnil]
    rcases C with _ | ⟨c0, C'⟩
    · -- A = [], C = []
      have hdinn : di.next = none := by simpa using hdinext
      have htl : bd.tail = some i := by simpa using htail2
      refine ⟨{ st with
          blocks := upd st.blocks b.idx (some { bd with head := none, tail := none }),
          insts := upd st.insts i.idx none }, ?_, ?_, ?_, ?_, ?_, ?_, ?_, ?_, ?_⟩
      · simp [Block.removeInst, Block.headE, Block.tailE, Block.setHead, Block.setTail,
          Inst.nextE, Inst.prevE, Context.tryDeallocInst, hb, hdi, hh, htl, hprevnone,
          hdinn, upd_upd, upd_same]
      · simp [upd_same]
      · intro k hk
        simp [upd, hk]
      · simp [upd_same]
      · intro p dp hp _
        simp at hp
      · intro n dn hn _
        simp at hn
      · intro k hk _ _
        simp [upd, hk]
      · rfl
      · exact ⟨{ bd with head := none, tail := none }, none, by simp [upd_same],
          ⟨rfl, rfl⟩, rfl, List.nodup_nil⟩
    · -- A = [], C = c0 :: C'
      have hsegCC := hsegC
      obtain ⟨hcur0, dc0, hdc0, hdc0prev, hdc0cont, hsegC'⟩ := hsegC
      have hic0 : i ≠ c0 := fun he => hiC (by rw [he]; exact List.mem_cons_self c0 C')
      have hidxc0 : i.idx ≠ c0.idx := Inst.idx_ne hic0
      have htv : bd.tail = (c0 :: C').getLast? := by
        simpa [List.getLast?_cons_cons] using htail2
      obtain ⟨cl, hcl⟩ : ∃ cl, (c0 :: C').getLast? = some cl :=
        ⟨_, List.getLast?_eq_getLast_of_ne_nil (List.cons_ne_nil c0 C')⟩
      have hclmem : cl ∈ c0 :: C' := mem_of_getLast?Eq hcl
      have hclne : ¬ (cl = i) := fun he => hiC (by rw [← he]; exact hclmem)
      have htlne : ¬ (bd.tail = some i) := by
        rw [htv, hcl]
        intro h
        exact hclne (by injection h)
      have hlooki : upd st.insts c0.idx (some { dc0 with prev := none }) i.idx = some di := by
        rw [upd_ne _ _ _ _ hidxc0]
        exact hdi
      refine ⟨{ st with
          blocks := upd st.blocks b.idx (some { bd with head := some c0 }),
          insts := upd (upd st.insts c0.idx (some { dc0 with prev := none })) i.idx none },
          ?_, ?_, ?_, ?_, ?_, ?_, ?_, ?_, ?_⟩
      · simp [Block.removeInst, Block.headE, Block.tailE, Block.setHead, Block.setTail,
          Inst.nextE, Inst.prevE, Inst.setPrev, Context.tryDeallocInst, hb, hdi, hdc0,
          hh, hcur0, hprevnone, htlne, hlooki, upd_same]
      · simp only [upd_same, List.nil_append, List.head?_cons]
        rw [← htv]
      · intro k hk
        simp [upd, hk]
      · simp [upd_same]
      · intro p dp hp _
        simp at hp
      · intro n dn hn hdn
        have hnc0 : n = c0 := by simpa using hn.symm
        subst hnc0
        have hdd : dn = dc0 := by rw [hdn] at hdc0; exact (Option.some.injEq _ _).mp hdc0
        subst hdd
        simp [upd, Ne.symm hidxc0]
      · intro k hki _ hn
        have hkc0 : k ≠ c0.idx := hn c0 (by simp)
        simp [upd, hki, hkc0]
      · rfl
      · refine ⟨{ bd with head := some c0 }, pr2, by simp [upd_same], ?_, htail, hndC⟩
        have hseg2 : seg st.insts b (some i) (some c0) (c0 :: C') pr2 none := by
          rw [← hcur0]; exact hsegCC
        have hseg3 := seg_set_head_prev (w := none) hndC hdc0 hseg2
        refine seg_frame (fun j hj => ?_) hseg3
        have hji : j ≠ i := fun he => hiC (by rw [← he]; exact hj)
        simp [upd, Inst.idx_ne hji]
  · -- A = a0 :: A'
    have hh0 : bd.head = some a0 := hA.1
    have ha0i : ¬ (a0 = i) := fun he => hiA (by rw [← he]; exact List.mem_cons_self a0 A')
    obtain ⟨p, hp⟩ : ∃ p, (a0 :: A').getLast? = some p :=
      ⟨_, List.getLast?_eq_getLast_of_ne_nil (List.cons_ne_nil a0 A')⟩
    have hpmem : p ∈ a0 :: A' := mem_of_getLast?Eq hp
    have hpi : p ≠ i := fun he => hiA (by rw [← he]; exact hpmem)
    obtain ⟨dp, hdp, -⟩ := seg_valid hA p hpmem
    have hprevp : di.prev = some p := by rw [hdiprev, hpm, hp]
    rcases C with _ | ⟨c0, C'⟩
    · -- A = a0 :: A', C = []
      have hdinn : di.next = none := by simpa using hdinext
      have htl : bd.tail = some i := by
        rw [htail2, List.getLast?_append_of_ne_nil _ (List.cons_ne_nil i [])]
        rfl
      have hlooki : upd st.insts p.idx (some { dp with next := none }) i.idx = some di := by
        rw [upd_ne _ _ _ _ (Inst.idx_ne (Ne.symm hpi))]
        exact hdi
      refine ⟨{ st with
          blocks := upd st.blocks b.idx (some { bd with tail := some p }),
          insts := upd (upd st.insts p.idx (some { dp with next := none })) i.idx none },
          ?_, ?_, ?_, ?_, ?_, ?_, ?_, ?_, ?_⟩
      · simp [Block.removeInst, Block.headE, Block.tailE, Block.setHead, Block.setTail,
          Inst.nextE, Inst.prevE, Inst.setNext, Context.tryDeallocInst, hb, hdi, hdp,
          hh0, ha0i, htl, hprevp, hdinn, hlooki, upd_same]
      · simp only [upd_same, List.append_nil, List.head?_cons, hp]
        rw [← hh0]
      · intro k hk
        simp [upd, hk]
      · simp [upd_same]
      · intro p2 dp2 hp2 hdp2
        have hpp : p2 = p := by rw [hp] at hp2; exact ((Option.some.injEq _ _).mp hp2).symm
        subst hpp
        have hdd : dp2 = dp := by rw [hdp2] at hdp; exact (Option.some.injEq _ _).mp hdp
        subst hdd
        simp [upd, Inst.idx_ne hpi]
      · intro n dn hn _
        simp at hn
      · intro k hki hpk _
        have hkp : k ≠ p.idx := hpk p hp
        simp [upd, hki, hkp]
      · rfl
      · simp only [List.append_nil]
        refine ⟨{ bd with tail := some p }, pm, by simp [upd_same], ?_, ?_, hndA⟩
        · have hseg3 := seg_set_last_next (v := none) (a0 :: A') hndA hp hdp hA
          refine seg_frame (fun j hj => ?_) hseg3
          have hji : j ≠ i := fun he => hiA (by rw [← he]; exact hj)
          simp [upd, Inst.idx_ne hji]
        · rw [hpm, hp]
    · -- A = a0 :: A', C = c0 :: C'
      have hsegCC := hsegC
      obtain ⟨hcur0, dc0, hdc0, hdc0prev, hdc0cont, hsegC'⟩ := hsegC
      have hic0 : i ≠ c0 := fun he => hiC (by rw [he]; exact List.mem_cons_self c0 C')
      have hidxc0 : i.idx ≠ c0.idx := Inst.idx_ne hic0
      have hpc0 : p ≠ c0 := fun he =>
        hdisj hpmem (by rw [he]; exact List.mem_cons_of_mem i (List.mem_cons_self c0 C'))
      have htv : bd.tail = (c0 :: C').getLast? := by
        rw [htail2, List.getLast?_append_of_ne_nil _ (List.cons_ne_nil i (c0 :: C')),
          List.getLast?_cons_cons]
      obtain ⟨cl, hcl⟩ : ∃ cl, (c0 :: C').getLast? = some cl :=
        ⟨_, List.getLast?_eq_getLast_of_ne_nil (List.cons_ne_nil c0 C')⟩
      have hclmem : cl ∈ c0 :: C' := mem_of_getLast?Eq hcl
      have hclne : ¬ (cl = i) := fun he => hiC (by rw [← he]; exact hclmem)
      have htlne : ¬ (bd.tail = some i) := by
        rw [htv, hcl]
        intro h
        exact hclne (by injection h)
      have hlook1 : upd st.insts p.idx (some { dp with next := some c0 }) c0.idx = some dc0 := by
        rw [upd_ne _ _ _ _ (Inst.idx_ne (Ne.symm hpc0))]
        exact hdc0
      have hlook2 :
          upd (upd st.insts p.idx (some { dp with next := some c0 })) c0.idx
            (some { dc0 with prev := some p }) i.idx = some di := by
        rw [upd_ne _ _ _ _ hidxc0, upd_ne _ _ _ _ (Inst.idx_ne (Ne.symm hpi))]
        exact hdi
      have hgl : ((a0 :: A') ++ c0 :: C').getLast? = (c0 :: C').getLast? :=
        List.getLast?_append_of_ne_nil _ (List.cons_ne_nil c0 C')
      refine ⟨{ st with
          insts := upd (upd (upd st.insts p.idx (some { dp with next := some c0 }))
            c0.idx (some { dc0 with prev := some p })) i.idx none },
          ?_, ?_, ?_, ?_, ?_, ?_, ?_, ?_, ?_⟩
      · simp [Block.removeInst, Block.headE, Block.tailE, Inst.nextE, Inst.prevE,
          Inst.setNext, Inst.setPrev, Context.tryDeallocInst, hb, hdi, hdp, hh0, ha0i,
          htlne, hprevp, hcur0, hlook1, hlook2, upd_same]
      · have hgl2 : (a0 :: (A' ++ c0 :: C')).getLast? = (c0 :: C').getLast? := hgl
        simp only [List.cons_append, List.head?_cons, hgl2]
        rw [← hh0, ← htv]
        exact hb
      · intro k _
        rfl
      · simp [upd_same]
      · intro p2 dp2 hp2 hdp2
        have hpp : p2 = p := by rw [hp] at hp2; exact ((Option.some.injEq _ _).mp hp2).symm
        subst hpp
        have hdd : dp2 = dp := by rw [hdp2] at hdp; exact (Option.some.injEq _ _).mp hdp
        subst hdd
        simp [upd, Inst.idx_ne hpi, Inst.idx_ne hpc0]
      · intro n dn hn hdn
        have hnc0 : n = c0 := by simpa using hn.symm
        subst hnc0
        have hdd : dn = dc0 := by rw [hdn] at hdc0; exact (Option.some.injEq _ _).mp hdc0
        subst hdd
        simp [upd, Ne.symm hidxc0, hp]
      · intro k hki hpk hnk
        have hkp : k ≠ p.idx := hpk p hp
        have hkc0 : k ≠ c0.idx := hnk c0 (by simp)
        simp [upd, hki, hkp, hkc0]
      · rfl
      · refine ⟨bd, pr2, hb, ?_, htail, hndAC⟩
        refine (seg_append (a0 :: A') (c0 :: C') none bd.head pr2 none).mpr
          ⟨pm, some c0, ?_, ?_⟩
        · have hseg3 := seg_set_last_next (a0 :: A') hndA hp hdp hA (v := some c0)
          refine seg_frame (fun j hj => ?_) hseg3
          have hji : j ≠ i := fun he => hiA (by rw [← he]; exact hj)
          have hjc0 : j ≠ c0 := fun he =>
            hdisj hj (by rw [he]; exact List.mem_cons_of_mem i (List.mem_cons_self c0 C'))
          simp [upd, Inst.idx_ne hji, Inst.idx_ne hjc0]
        · have hseg2 : seg st.insts b (some i) (some c0) (c0 :: C') pr2 none := by
            rw [← hcur0]; exact hsegCC
          have hseg3 := seg_set_head_prev hndC hdc0 hseg2 (w := some p)
          have hseg4 : seg (upd st.insts c0.idx (some { dc0 with prev := some p })) b pm
              (some c0) (c0 :: C') pr2 none := by
            rw [hpm, hp]; exact hseg3
          refine seg_frame (fun j hj => ?_) hseg4
          have hji : j ≠ i := fun he => hiC (by rw [← he]; exact hj)
          have hjp : j ≠ p := fun he =>
            hdisj (by rw [he]; exact hpmem) (List.mem_cons_of_mem i hj)
          by_cases hjc : j = c0
          · subst hjc
            simp [upd, Inst.idx_ne hji]
          · simp [upd, Inst.idx_ne hji, Inst.idx_ne hjc, Inst.idx_ne hjp]

/-! ### Symbolic-execution lemma for `Inst::insert_after` -/

/-- Complete description of a successful `insert_after(r, n)` splicing a
freshly allocated, unattached instruction `n` right after `r` in block `b`'s
list: the container's tail is updated when `r` was last, `n` is linked
between `r` and `r`'s old successor, everything else is untouched, and the
list invariant holds for the list with `n` inserted after `r`. -/
theorem insertAfter_run (st : Context) (b : Block) (r n : Inst) (A C : List Inst)
    (bd : BlockData) (pr2 : Option Inst) (dn : InstData)
    (hb : st.blocks b.idx = some bd)
    (hseg : seg st.insts b none bd.head (A ++ r :: C) pr2 none)
    (htail : bd.tail = pr2)
    (hnd : (A ++ r :: C).Nodup)
    (hn : st.insts n.idx = some dn)
    (hnmem : n ∉ A ++ r :: C) :
    ∃ st',
      Inst.insertAfter st r n = .ok st' () ∧
      st'.blocks b.idx = some { bd with tail := if C = [] then some n else bd.tail } ∧
      (∀ k, k ≠ b.idx → st'.blocks k = st.blocks k) ∧
      st'.insts n.idx = some { dn with next := C.head?, prev := some r, container := some b } ∧
      (∀ j, j ≠ n.idx → j ≠ r.idx → (∀ f, C.head? = some f → j ≠ f.idx) →
        st'.insts j = st.insts j) ∧
      st'.funcs = st.funcs ∧ st'.nextInst = st.nextInst ∧ st'.nextBlock = st.nextBlock ∧
      wf st' b (A ++ r :: n :: C) := by
  obtain ⟨pm, cm, hA, hRC⟩ := (seg_append A (r :: C) none bd.head pr2 none).mp hseg
  obtain ⟨hcm, dr, hdr, hdrprev, hdrcont, hsegC⟩ := hRC
  subst hcm
  have hdrnext : dr.next = C.head? := seg_entry hsegC
  have hndA : A.Nodup := (List.nodup_append.mp hnd).1
  have hndRC : (r :: C).Nodup := (List.nodup_append.mp hnd).2.1
  have hdisj : List.Disjoint A (r :: C) := (List.nodup_append.mp hnd).2.2
  have hrA : r ∉ A := fun hmem => hdisj hmem (List.mem_cons_self r C)
  have hrC : r ∉ C := (List.nodup_cons.mp hndRC).1
  have hndC : C.Nodup := (List.nodup_cons.mp hndRC).2
  have hnA : n ∉ A := fun hmem => hnmem (List.mem_append.mpr (Or.inl hmem))
  have hnr : n ≠ r := fun he =>
    hnmem (by rw [he]; exact List.mem_append.mpr (Or.inr (List.mem_cons_self r C)))
  have hnC : n ∉ C := fun hmem =>
    hnmem (List.mem_append.mpr (Or.inr (List.mem_cons_of_mem r hmem)))
  rcases C with _ | ⟨c0, C'⟩
  · -- C = [] : r is the last instruction; the container's tail moves to n
    have hdrnn : dr.next = none := by simpa using hdrnext
    have hlookr : upd st.insts n.idx
        (some { dn with next := none, prev := some r, container := some b }) r.idx
        = some dr := by
      rw [upd_ne _ _ _ _ (Inst.idx_ne (fun he => hnr he.symm))]
      exact hdr
    refine ⟨{ st with
        blocks := upd st.blocks b.idx (some { bd with tail := some n }),
        insts := upd (upd st.insts n.idx
          (some { dn with next := none, prev := some r, container := some b })) r.idx
          (some { dr with next := some n }) }, ?_, ?_, ?_, ?_, ?_, ?_, ?_, ?_, ?_⟩
    · simp [Inst.insertAfter, hdr, hdrcont, hn, hdrnn, hb]
    · simp [upd_same]
    · intro k hk
      simp [upd, hk]
    · simp [upd, Inst.idx_ne hnr]
    · intro j hjn hjr _
      simp [upd, hjn, hjr]
    · rfl
    · rfl
    · rfl
    · refine ⟨{ bd with tail := some n }, some n, by simp [upd_same], ?_, rfl, ?_⟩
      · refine (seg_append A (r :: [n]) none bd.head (some n) none).mpr ⟨pm, some r, ?_, ?_⟩
        · refine seg_frame (fun j hj => ?_) hA
          have hjr : j ≠ r := fun he => hrA (he ▸ hj)
          have hjn : j ≠ n := fun he => hnA (he ▸ hj)
          simp [upd, Inst.idx_ne hjr, Inst.idx_ne hjn]
        · refine ⟨rfl, { dr with next := some n }, by simp [upd, upd_same], hdrprev,
            hdrcont, ?_⟩
          refine ⟨rfl, { dn with next := none, prev := some r, container := some b }, ?_, rfl,
            rfl, rfl, rfl⟩
          simp [upd, Inst.idx_ne hnr]
      · refine List.nodup_append.mpr ⟨hndA, ?_, ?_⟩
        · refine List.nodup_cons.mpr ⟨?_, List.nodup_cons.mpr ⟨by simp, List.nodup_nil⟩⟩
          intro hmem
          rcases List.mem_cons.mp hmem with he | hm
          · exact hnr he.symm
          · simp at hm
        · intro j hj hmem
          rcases List.mem_cons.mp hmem with he | hmem2
          · exact hrA (he ▸ hj)
          · rcases List.mem_cons.mp hmem2 with he | hm
            · exact hnA (he ▸ hj)
            · simp at hm
  · -- C = c0 :: C' : r has a successor; its prev pointer moves to n
    obtain ⟨hcur0, dc0, hdc0, hdc0prev, hdc0cont, hsegC'⟩ := hsegC
    have hc0C : c0 ∈ c0 :: C' := List.mem_cons_self c0 C'
    have hc0r : c0 ≠ r := fun he => hrC (by rw [← he]; exact hc0C)
    have hc0n : c0 ≠ n := fun he => hnC (by rw [← he]; exact hc0C)
    have hlookr2 : upd st.insts n.idx
        (some { dn with next := some c0, prev := some r, container := some b }) r.idx
        = some dr := by
      rw [upd_ne _ _ _ _ (Inst.idx_ne (fun he => hnr he.symm))]
      exact hdr
    have hlookc0 : upd (upd st.insts n.idx
        (some { dn with next := some c0, prev := some r, container := some b })) r.idx
        (some { dr with next := some n, container := some b }) c0.idx = some dc0 := by
      rw [upd_ne _ _ _ _ (Inst.idx_ne hc0r), upd_ne _ _ _ _ (Inst.idx_ne hc0n)]
      exact hdc0
    refine ⟨{ st with
        insts := upd (upd (upd st.insts n.idx
          (some { dn with next := some c0, prev := some r, container := some b })) r.idx
          (some { dr with next := some n })) c0.idx
          (some { dc0 with prev := some n }) }, ?_, ?_, ?_, ?_, ?_, ?_, ?_, ?_, ?_⟩
    · simp [Inst.insertAfter, hdr, hdrcont, hn, hcur0, hlookr2, hlookc0]
    · simp [hb]
    · intro k _
      rfl
    · simp [upd, Inst.idx_ne hnr, Ne.symm (Inst.idx_ne hc0n)]
    · intro j hjn hjr hjc0
      have hjc : j ≠ c0.idx := hjc0 c0 (by simp)
      simp [upd, hjn, hjr, hjc]
    · rfl
    · rfl
    · rfl
    · refine ⟨bd, pr2, by simp [hb], ?_, htail, ?_⟩
      · refine (seg_append A (r :: n :: c0 :: C') none bd.head pr2 none).mpr
          ⟨pm, some r, ?_, ?_⟩
        · refine seg_frame (fun j hj => ?_) hA
          have hjr : j ≠ r := fun he => hrA (he ▸ hj)
          have hjn : j ≠ n := fun he => hnA (he ▸ hj)
          have hjc0 : j ≠ c0 := fun he => hdisj hj (by rw [he]; exact List.mem_cons_of_mem r hc0C)
          simp [upd, Inst.idx_ne hjr, Inst.idx_ne hjn, Inst.idx_ne hjc0]
        · refine ⟨rfl, { dr with next := some n }, ?_, hdrprev, hdrcont, ?_⟩
          · simp [upd, Ne.symm (Inst.idx_ne hc0r)]
          · refine ⟨rfl, { dn with next := some c0, prev := some r, container := some b },
              ?_, rfl, rfl, ?_⟩
            · simp [upd, Ne.symm (Inst.idx_ne hc0n), Inst.idx_ne hnr]
            · refine ⟨rfl, { dc0 with prev := some n }, by simp [upd, upd_same], rfl,
                hdc0cont, ?_⟩
              refine seg_frame (fun j hj => ?_) hsegC'
              have hjc0 : j ≠ c0 := fun he => ((List.nodup_cons.mp hndC).1) (he ▸ hj)
              have hjr : j ≠ r := fun he => hrC (he ▸ List.mem_cons_of_mem c0 hj)
              have hjn : j ≠ n := fun he => hnC (he ▸ List.mem_cons_of_mem c0 hj)
              simp [upd, Inst.idx_ne hjc0, Inst.idx_ne hjr, Inst.idx_ne hjn]
      · refine List.nodup_append.mpr ⟨hndA, ?_, ?_⟩
        · refine List.nodup_cons.mpr ⟨?_, List.nodup_cons.mpr ⟨hnC, hndC⟩⟩
          intro hmem
          rcases List.mem_cons.mp hmem with he | hm
          · exact hnr he.symm
          · exact hrC hm
        · intro j hj hmem
          rcases List.mem_cons.mp hmem with he | hmem2
          · exact hdisj hj (by rw [he]; exact List.mem_cons_self r (c0 :: C'))
          · rcases List.mem_cons.mp hmem2 with he | hm
            · exact hnA (he ▸ hj)
            · exact hdisj hj (List.mem_cons_of_mem r hm)

/-! ### Claim theorems -/

/-- C9: every block returned by `Block::new` (allocate) has an empty
successor set, an empty user set, an empty instruction list (head and tail
both unset), and is unattached (next, prev and container all unset). -/
theorem C9_new_block_empty (st : Context) :
    ∃ d, (Block.new st).1.blocks (Block.new st).2.idx = some d ∧
      d.users = ∅ ∧ d.successors = ∅ ∧ d.head = none ∧ d.tail = none ∧
      d.next = none ∧ d.prev = none ∧ d.container = none := by
  refine ⟨{ users := ∅, next := none, prev := none, successors := ∅, head := none, tail := none, container := none }, ?_, rfl, rfl, rfl, rfl, rfl, rfl, rfl⟩
  simp [Block.new, upd_same]

/-- C7: deallocating (`try_dealloc`) a block handle whose arena slot is
already absent returns `none` on every such call, never panics (the
operation is a total function), leaves the context unchanged, and never
returns data from a reused slot. -/
theorem C7_dealloc_absent_noop (st : Context) (b : Block)
    (h : st.blocks b.idx = none) :
    Context.tryDeallocBlock st b = (st, none) := by
  simp [Context.tryDeallocBlock, h]

/-- C8: `Block::remove` delegates block destruction entirely to the owning
function's `remove_block`, and the `edges` parameter has no effect on the
result: any two edge lists produce identical final states. -/
theorem C8_remove_ignores_edges (st : Context) (b : Block) (e1 e2 : List BlockEdge) :
    Block.remove st b e1 = Block.remove st b e2 ∧
    (∀ bd f, st.blocks b.idx = some bd → bd.container = some f →
      Block.remove st b e1 = Func.removeBlock st f b) := by
  refine ⟨rfl, ?_⟩
  intro bd f hb hc
  simp [Block.remove, Block.containerE, hb, hc]

/-- C10: `Block::remove` on a block whose `container` is `None` panics on the
`unwrap`; when the block is attached to a function, the panic branch is not
taken and the call always reaches the container's `remove_block`. -/
theorem C10_remove_unattached_panics (st : Context) (b : Block) (bd : BlockData)
    (e : List BlockEdge) (hb : st.blocks b.idx = some bd) :
    (bd.container = none →
      Block.remove st b e = .fatal "called Option::unwrap() on a None value" st) ∧
    (∀ f, bd.container = some f → Block.remove st b e = Func.removeBlock st f b) := by
  constructor
  · intro h
    simp [Block.remove, Block.containerE, hb, h]
  · intro f h
    simp [Block.remove, Block.containerE, hb, h]

/-- C5 (amended): `add_successor` / `remove_successor` on a terminator whose
opcode is neither `Br` nor `CondBr` fail by panicking with the message
"unavailble br" — terminating the process rather than returning a typed,
recoverable result — and the context (successor set and instruction list
included) is unchanged at the moment of the panic. -/
theorem C5_other_opcode_panics (st : Context) (b t : Block) (i : Inst)
    (d : InstData) (w : Bool)
    (hi : st.insts i.idx = some d) (hk : d.kind = .Other) :
    Block.addSuccessor st b t i w = .fatal "unavailble br" st ∧
    Block.removeSuccessor st b t i w = .fatal "unavailble br" st := by
  constructor
  · simp [Block.addSuccessor, Inst.kindE, hi, hk]
  · simp [Block.removeSuccessor, Inst.kindE, hi, hk]

/-- C2: `add_successor` with an unconditional branch records
`(target, inst, false)` regardless of the arm flag; with a two-way
conditional branch it records `(target, inst, which_arm)`; and because edge
equality covers all three fields, registering both arms of one conditional
terminator yields two distinct set members even when both arms target the
same block. -/
theorem C2_add_successor_edges (st : Context) (b t : Block) (i : Inst)
    (d : InstData) (bd : BlockData) (w : Bool)
    (hi : st.insts i.idx = some d) (hb : st.blocks b.idx = some bd) :
    (d.kind = .Br →
      ∃ st', Block.addSuccessor st b t i w = .ok st' () ∧
        st'.blocks b.idx = some { bd with successors := insert ⟨t, i, false⟩ bd.successors } ∧
        (∀ k, k ≠ b.idx → st'.blocks k = st.blocks k) ∧ st'.insts = st.insts) ∧
    (d.kind = .CondBr →
      ∃ st', Block.addSuccessor st b t i w = .ok st' () ∧
        st'.blocks b.idx = some { bd with successors := insert ⟨t, i, w⟩ bd.successors } ∧
        (∀ k, k ≠ b.idx → st'.blocks k = st.blocks k) ∧ st'.insts = st.insts) ∧
    (d.kind = .CondBr → bd.successors = ∅ →
      ∃ st1 st2, Block.addSuccessor st b t i true = .ok st1 () ∧
        Block.addSuccessor st1 b t i false = .ok st2 () ∧
        ∃ bd2, st2.blocks b.idx = some bd2 ∧
          bd2.successors = {(⟨t, i, true⟩ : BlockEdge), ⟨t, i, false⟩} ∧
          bd2.successors.card = 2) := by
  refine ⟨?_, ?_, ?_⟩
  · intro hk
    refine ⟨{ st with blocks := upd st.blocks b.idx (some { bd with successors := insert ⟨t, i, false⟩ bd.successors }) }, ?_, ?_, ?_, rfl⟩
    · simp [Block.addSuccessor, Inst.kindE, Block.insertEdge, hi, hk, hb]
    · simp [upd_same]
    · intro k hk2
      simp [upd, hk2]
  · intro hk
    refine ⟨{ st with blocks := upd st.blocks b.idx (some { bd with successors := insert ⟨t, i, w⟩ bd.successors }) }, ?_, ?_, ?_, rfl⟩
    · simp [Block.addSuccessor, Inst.kindE, Block.insertEdge, hi, hk, hb]
    · simp [upd_same]
    · intro k hk2
      simp [upd, hk2]
  · intro hk hempty
    refine ⟨{ st with blocks := upd st.blocks b.idx (some { bd with successors := insert ⟨t, i, true⟩ bd.successors }) },
      { st with blocks := upd st.blocks b.idx (some { bd with successors := insert ⟨t, i, false⟩ (insert ⟨t, i, true⟩ bd.successors) }) },
      ?_, ?_, ?_⟩
    · simp [Block.addSuccessor, Inst.kindE, Block.insertEdge, hi, hk, hb]
    · simp [Block.addSuccessor, Inst.kindE, Block.insertEdge, hi, hk, hb, upd_same, upd_upd]
    · refine ⟨{ bd with successors := insert ⟨t, i, false⟩ (insert ⟨t, i, true⟩ bd.successors) }, by simp [upd_same], ?_, ?_⟩
      · rw [hempty]
        exact Finset.pair_comm (⟨t, i, false⟩ : BlockEdge) ⟨t, i, true⟩
      · rw [hempty]
        have hne : (⟨t, i, false⟩ : BlockEdge) ≠ ⟨t, i, true⟩ := by
          intro h
          simpa using congrArg BlockEdge.true_br h
        rw [show (insert (⟨t, i, false⟩ : BlockEdge) (insert ⟨t, i, true⟩ ∅) : Finset BlockEdge)
          = {⟨t, i, false⟩, ⟨t, i, true⟩} from rfl]
        rw [Finset.card_pair hne]

/-- C4 (amended): `remove_inst` performs no membership check and signals no
error when `inst` is not in the block's list (see the counterexample); when
`inst` does currently belong to B's instruction list, it updates B's head
(resp. tail) if `inst` was the first (resp. last) instruction, relinks
`inst`'s two neighbors to each other, and then deallocates `inst`'s arena
slot. -/
theorem C4_remove_inst_behavior (st : Context) (b : Block) (i : Inst)
    (A C : List Inst) (bd : BlockData) (pr2 : Option Inst)
    (hb : st.blocks b.idx = some bd)
    (hseg : seg st.insts b none bd.head (A ++ i :: C) pr2 none)
    (htail : bd.tail = pr2)
    (hnd : (A ++ i :: C).Nodup) :
    ∃ st',
      Block.removeInst st b i = .ok st' () ∧
      st'.insts i.idx = none ∧
      st'.blocks b.idx = some { bd with head := (A ++ C).head?, tail := (A ++ C).getLast? } ∧
      (∀ p dp, A.getLast? = some p → st.insts p.idx = some dp →
        st'.insts p.idx = some { dp with next := C.head? }) ∧
      (∀ n dn, C.head? = some n → st.insts n.idx = some dn →
        st'.insts n.idx = some { dn with prev := A.getLast? }) := by
  obtain ⟨st', h1, h2, h3, h4, h5, h6, h7, h8, h9⟩ :=
    removeInst_run st b i A C bd pr2 hb hseg htail hnd
  exact ⟨st', h1, h4, h2, h5, h6⟩

/-- C6: if the doubly-linked-list invariant holds for B's instruction list
`A ++ i :: C` (forward and backward walks are exact reverses, no duplicates,
all entries contained in B), then after `remove_inst(B, i)` the invariant
still holds for the remaining list `A ++ C` — exactly the previous
instructions minus `i`, in their original relative order. -/
theorem C6_remove_inst_invariant (st : Context) (b : Block) (i : Inst)
    (A C : List Inst) (h : wf st b (A ++ i :: C)) :
    ∃ st', Block.removeInst st b i = .ok st' () ∧ wf st' b (A ++ C) := by
  obtain ⟨bd, pr2, hb, hseg, htail, hnd⟩ := h
  obtain ⟨st', h1, h2, h3, h4, h5, h6, h7, h8, h9⟩ :=
    removeInst_run st b i A C bd pr2 hb hseg htail hnd
  exact ⟨st', h1, h9⟩

/-- C3: for a block whose successor set is exactly the single edge
`(t, br, false)` of an unconditional branch terminator `br` sitting at the
end of its instruction list, `remove_successor(B, t, br, _)` (any arm flag)
removes that edge and deletes `br` (unlinks it from the list and deallocates
its slot), leaving the block with an empty successor set, no terminator, and
the list invariant holding on the remaining instructions. -/
theorem C3_remove_successor_br (st : Context) (b t : Block) (br : Inst)
    (A : List Inst) (bd : BlockData) (pr2 : Option Inst) (d : InstData) (w : Bool)
    (hb : st.blocks b.idx = some bd)
    (hseg : seg st.insts b none bd.head (A ++ [br]) pr2 none)
    (htail : bd.tail = pr2)
    (hnd : (A ++ [br]).Nodup)
    (hd : st.insts br.idx = some d) (hk : d.kind = .Br)
    (hsucc : bd.successors = {⟨t, br, false⟩}) :
    ∃ st', Block.removeSuccessor st b t br w = .ok st' () ∧
      (∃ bd', st'.blocks b.idx = some bd' ∧ bd'.successors = ∅ ∧
        bd'.head = A.head? ∧ bd'.tail = A.getLast?) ∧
      st'.insts br.idx = none ∧
      wf st' b A := by
  have hcont : d.container = some b := by
    obtain ⟨d2, hd2, hc2⟩ := seg_valid hseg br
      (List.mem_append.mpr (Or.inr (List.mem_cons_self br [])))
    rw [hd] at hd2
    have hdd := (Option.some.injEq _ _).mp hd2
    rw [hdd]
    exact hc2
  obtain ⟨st1, h1, h2, h3, h4, h5, h6, h7, h8, h9⟩ :=
    removeInst_run st b br A [] bd pr2 hb hseg htail hnd
  have hrm : Inst.remove st br = .ok st1 () := by
    rw [instRemove_eq hd hcont]
    exact h1
  refine ⟨{ st1 with blocks := upd st1.blocks b.idx (some { bd with head := (A ++ []).head?, tail := (A ++ []).getLast?, successors := bd.successors.erase ⟨t, br, false⟩ }) }, ?_, ?_, ?_, ?_⟩
  · simp [Block.removeSuccessor, Inst.kindE, hd, hk, hrm, Block.eraseEdge, h2]
  · refine ⟨{ bd with head := (A ++ []).head?, tail := (A ++ []).getLast?, successors := bd.successors.erase ⟨t, br, false⟩ }, by simp [upd_same], ?_, ?_, ?_⟩
    · rw [show ({ bd with head := (A ++ []).head?, tail := (A ++ []).getLast?, successors := bd.successors.erase ⟨t, br, false⟩ } : BlockData).successors = bd.successors.erase ⟨t, br, false⟩ from rfl, hsucc]
      exact Finset.erase_singleton _
    · simp
    · simp
  · exact h4
  · rw [List.append_nil] at h9
    obtain ⟨bdw, pr2w, hbw, hsegw, htailw, hndw⟩ := h9
    have hbdw : ({ bd with head := (A ++ []).head?, tail := (A ++ []).getLast? } : BlockData) = bdw := by
      rw [h2] at hbw
      exact (Option.some.injEq _ _).mp hbw
    have hhead : bdw.head = (A ++ []).head? := by rw [← hbdw]
    have htailv : bdw.tail = (A ++ []).getLast? := by rw [← hbdw]
    rw [hhead] at hsegw
    refine ⟨{ bd with head := (A ++ []).head?, tail := (A ++ []).getLast?, successors := bd.successors.erase ⟨t, br, false⟩ }, pr2w, by simp [upd_same], hsegw, ?_, hndw⟩
    rw [← htailw, htailv]

/-- C1: for a block whose terminator `c` is a two-way conditional branch with
both arms registered as successor edges, removing one arm leaves exactly one
successor edge, whose terminator is a newly synthesized unconditional branch
(distinct from `c`), whose target is the untouched arm's original target
(read from `c`'s other operand), and whose arm flag is false; `c` is removed
from the block's instruction list — the new branch takes its place — and
`c`'s slot is deallocated. -/
theorem C1_condbr_downgrade (st : Context) (b tT fT : Block) (c : Inst)
    (A C : List Inst) (bd : BlockData) (pr2 : Option Inst) (dc : InstData) (tb : Bool)
    (hb : st.blocks b.idx = some bd)
    (hseg : seg st.insts b none bd.head (A ++ c :: C) pr2 none)
    (htail : bd.tail = pr2)
    (hnd : (A ++ c :: C).Nodup)
    (hc : st.insts c.idx = some dc) (hk : dc.kind = .CondBr)
    (hops : dc.succs = [tT, fT])
    (hsucc : bd.successors = {⟨tT, c, true⟩, ⟨fT, c, false⟩})
    (hfresh : st.insts st.nextInst = none) :
    ∃ st',
      Block.removeSuccessor st b (if tb then tT else fT) c tb = .ok st' () ∧
      (∃ bd', st'.blocks b.idx = some bd' ∧
        bd'.successors = {⟨(if tb then fT else tT), Inst.mk st.nextInst, false⟩}) ∧
      Inst.mk st.nextInst ≠ c ∧
      st'.insts c.idx = none ∧
      (∃ dn, st'.insts (Inst.mk st.nextInst).idx = some dn ∧ dn.kind = .Br ∧
        dn.succs = [if tb then fT else tT]) ∧
      wf st' b (A ++ Inst.mk st.nextInst :: C) := by
  have hsvE : Inst.successorE st c (if tb then 1 else 0) = .ok st (if tb then fT else tT) := by
    cases tb <;> simp [Inst.successorE, hc, hops]
  have hnc : Inst.mk st.nextInst ≠ c := by
    intro he
    have h2 : st.insts (Inst.mk st.nextInst).idx = some dc := by rw [he]; exact hc
    have h3 : st.insts st.nextInst = some dc := h2
    rw [hfresh] at h3
    cases h3
  have hmemne : ∀ j ∈ A ++ c :: C, j.idx ≠ st.nextInst := by
    intro j hj he
    obtain ⟨dj, hdj, -⟩ := seg_valid hseg j hj
    rw [he, hfresh] at hdj
    cases hdj
  have hnmem3 : Inst.mk st.nextInst ∉ A ++ c :: C := fun hm => (hmemne _ hm) rfl
  have herase : ((bd.successors.erase ⟨(if tb then tT else fT), c, tb⟩).erase
      ⟨(if tb then fT else tT), c, !tb⟩) = ∅ := by
    cases tb <;> (rw [hsucc]; ext e; simp; try tauto)
  -- the state after the two edge erasures and the allocation of the new branch
  obtain ⟨st4, h41, h42, h43, h44, h45, h46, h47, h48, hwf4⟩ :=
    insertAfter_run
      { st with
        blocks := upd st.blocks b.idx (some { bd with successors := (bd.successors.erase ⟨(if tb then tT else fT), c, tb⟩).erase ⟨(if tb then fT else tT), c, !tb⟩ }),
        insts := upd st.insts st.nextInst (some { kind := .Br, succs := [if tb then fT else tT], next := none, prev := none, container := none }),
        nextInst := st.nextInst + 1 }
      b c (Inst.mk st.nextInst) A C
      { bd with successors := (bd.successors.erase ⟨(if tb then tT else fT), c, tb⟩).erase ⟨(if tb then fT else tT), c, !tb⟩ }
      pr2
      { kind := .Br, succs := [if tb then fT else tT], next := none, prev := none, container := none }
      (by simp [upd_same])
      (seg_frame (fun j hj => upd_ne _ _ _ _ (hmemne j hj)) hseg)
      htail hnd (by simp [upd_same]) hnmem3
  obtain ⟨bd4, pr24, hb4, hseg4, htail4, hnd4⟩ := hwf4
  obtain ⟨dc4, hdc4, hcont4⟩ := seg_valid hseg4 c
    (List.mem_append.mpr (Or.inr (List.mem_cons_self c _)))
  obtain ⟨st5, h51, h52, h53, h54, h55, h56, h57, h58, hwf5⟩ :=
    removeInst_run st4 b c A (Inst.mk st.nextInst :: C) bd4 pr24 hb4 hseg4 htail4 hnd4
  have hrm : Inst.remove st4 c = .ok st5 () := by
    rw [instRemove_eq hdc4 hcont4]
    exact h51
  -- the new branch's payload after the splice and the removal of `c`
  have hn5 : st5.insts (Inst.mk st.nextInst).idx =
      some { kind := .Br, succs := [if tb then fT else tT], next := C.head?,
             prev := A.getLast?, container := some b } := by
    have := h56 (Inst.mk st.nextInst)
      { kind := .Br, succs := [if tb then fT else tT], next := C.head?,
        prev := some c, container := some b } rfl h44
    exact this
  -- the block payload recorded by the removal of `c`
  have hbd4 : ({ bd with successors := (bd.successors.erase ⟨(if tb then tT else fT), c, tb⟩).erase ⟨(if tb then fT else tT), c, !tb⟩, tail := if C = [] then some (Inst.mk st.nextInst) else bd.tail } : BlockData) = bd4 := by
    rw [h42] at hb4
    exact (Option.some.injEq _ _).mp hb4
  have hsucc5 : bd4.successors = ∅ := by
    rw [← hbd4]
    exact herase
  have hadd : Block.addSuccessor st5 b (if tb then fT else tT) (Inst.mk st.nextInst) false =
      .ok { st5 with blocks := upd st5.blocks b.idx (some { bd4 with head := (A ++ Inst.mk st.nextInst :: C).head?, tail := (A ++ Inst.mk st.nextInst :: C).getLast?, successors := insert ⟨(if tb then fT else tT), Inst.mk st.nextInst, false⟩ bd4.successors }) } () := by
    simp [Block.addSuccessor, Inst.kindE, hn5, Block.insertEdge, h52]
  have step1 : Block.removeSuccessor st b (if tb then tT else fT) c tb =
      Res.bind (Inst.insertAfter
        { st with
          blocks := upd st.blocks b.idx (some { bd with successors := (bd.successors.erase ⟨(if tb then tT else fT), c, tb⟩).erase ⟨(if tb then fT else tT), c, !tb⟩ }),
          insts := upd st.insts st.nextInst (some { kind := .Br, succs := [if tb then fT else tT], next := none, prev := none, container := none }),
          nextInst := st.nextInst + 1 }
        c (Inst.mk st.nextInst)) (fun s1 _ =>
          Res.bind (Inst.remove s1 c) fun s2 _ =>
            Block.addSuccessor s2 b (if tb then fT else tT) (Inst.mk st.nextInst) false) := by
    simp [Block.removeSuccessor, Inst.kindE, hc, hk, hsvE, Block.eraseEdge, hb, upd_same,
      upd_upd, Inst.br]
  refine ⟨{ st5 with blocks := upd st5.blocks b.idx (some { bd4 with head := (A ++ Inst.mk st.nextInst :: C).head?, tail := (A ++ Inst.mk st.nextInst :: C).getLast?, successors := insert ⟨(if tb then fT else tT), Inst.mk st.nextInst, false⟩ bd4.successors }) }, ?_, ?_, hnc, ?_, ?_, ?_⟩
  · rw [step1, h41, Res.bind_ok, hrm, Res.bind_ok, hadd]
  · refine ⟨{ bd4 with head := (A ++ Inst.mk st.nextInst :: C).head?, tail := (A ++ Inst.mk st.nextInst :: C).getLast?, successors := insert ⟨(if tb then fT else tT), Inst.mk st.nextInst, false⟩ bd4.successors }, by simp [upd_same], ?_⟩
    rw [show ({ bd4 with head := (A ++ Inst.mk st.nextInst :: C).head?, tail := (A ++ Inst.mk st.nextInst :: C).getLast?, successors := insert ⟨(if tb then fT else tT), Inst.mk st.nextInst, false⟩ bd4.successors } : BlockData).successors = insert ⟨(if tb then fT else tT), Inst.mk st.nextInst, false⟩ bd4.successors from rfl, hsucc5]
    simp
  · exact h54
  · exact ⟨_, hn5, rfl, rfl⟩
  · obtain ⟨bdw, pr2w, hbw, hsegw, htailw, hndw⟩ := hwf5
    have hbdw : ({ bd4 with head := (A ++ Inst.mk st.nextInst :: C).head?, tail := (A ++ Inst.mk st.nextInst :: C).getLast? } : BlockData) = bdw := by
      rw [h52] at hbw
      exact (Option.some.injEq _ _).mp hbw
    have hhead : bdw.head = (A ++ Inst.mk st.nextInst :: C).head? := by rw [← hbdw]
    have htailv : bdw.tail = (A ++ Inst.mk st.nextInst :: C).getLast? := by rw [← hbdw]
    rw [hhead] at hsegw
    refine ⟨{ bd4 with head := (A ++ Inst.mk st.nextInst :: C).head?, tail := (A ++ Inst.mk st.nextInst :: C).getLast?, successors := insert ⟨(if tb then fT else tT), Inst.mk st.nextInst, false⟩ bd4.successors }, pr2w, by simp [upd_same], hsegw, ?_, hndw⟩
    rw [← htailw, htailv]

/-! ### Concrete example contexts for witnesses and counterexamples -/

/-- Payload of a freshly allocated, empty, unattached block. -/
def exBd0 : BlockData :=
  { users := ∅, next := none, prev := none, successors := ∅, head := none,
    tail := none, container := none }

/-- A context holding a single unattached, empty block in slot 0. -/
def exU : Context :=
  { blocks := upd (fun _ => none) 0 (some exBd0), insts := fun _ => none,
    funcs := fun _ => none, nextBlock := 1, nextInst := 0 }

/-- Payload of a block attached to function 0. -/
def exBdAtt : BlockData := { exBd0 with container := some ⟨0⟩ }

/-- Payload of a function whose block list is exactly block 0. -/
def exFd : FuncData := { head := some ⟨0⟩, tail := some ⟨0⟩ }

/-- A context holding block 0 attached to function 0. -/
def exAtt : Context :=
  { blocks := upd (fun _ => none) 0 (some exBdAtt), insts := fun _ => none,
    funcs := upd (fun _ => none) 0 (some exFd), nextBlock := 1, nextInst := 0 }

/-- Payload of an instruction whose opcode is neither branch kind. -/
def exOther : InstData :=
  { kind := .Other, succs := [], next := none, prev := none, container := none }

/-- A context holding an empty block 0 and an unattached non-branch
instruction 0 (which belongs to no block's list). -/
def exSt1 : Context :=
  { blocks := upd (fun _ => none) 0 (some exBd0), insts := upd (fun _ => none) 0 (some exOther),
    funcs := fun _ => none, nextBlock := 1, nextInst := 1 }

/-- First instruction of the two-instruction list example. -/
def exI0 : InstData :=
  { kind := .Other, succs := [], next := some ⟨1⟩, prev := none, container := some ⟨0⟩ }

/-- Second instruction (an unconditional branch to block 0, the block's
terminator) of the two-instruction list example. -/
def exI1 : InstData :=
  { kind := .Br, succs := [⟨0⟩], next := none, prev := some ⟨0⟩, container := some ⟨0⟩ }

/-- Block payload whose list is instruction 0 followed by instruction 1 and
whose successor set is the single unconditional edge of instruction 1. -/
def exBdL : BlockData :=
  { users := ∅, next := none, prev := none, successors := {⟨⟨0⟩, ⟨1⟩, false⟩},
    head := some ⟨0⟩, tail := some ⟨1⟩, container := none }

/-- A context with block 0 holding the two-instruction list. -/
def exListSt : Context :=
  { blocks := upd (fun _ => none) 0 (some exBdL),
    insts := upd (upd (fun _ => none) 0 (some exI0)) 1 (some exI1),
    funcs := fun _ => none, nextBlock := 1, nextInst := 2 }

/-- A two-way conditional branch instruction with arms block 1 / block 2. -/
def exCBr : InstData :=
  { kind := .CondBr, succs := [⟨1⟩, ⟨2⟩], next := none, prev := none, container := some ⟨0⟩ }

/-- Block payload terminated by the conditional branch, both arms
registered. -/
def exBdC : BlockData :=
  { users := ∅, next := none, prev := none,
    successors := {⟨⟨1⟩, ⟨0⟩, true⟩, ⟨⟨2⟩, ⟨0⟩, false⟩},
    head := some ⟨0⟩, tail := some ⟨0⟩, container := none }

/-- A context with block 0 terminated by the conditional branch. -/
def exC1St : Context :=
  { blocks := upd (fun _ => none) 0 (some exBdC), insts := upd (fun _ => none) 0 (some exCBr),
    funcs := fun _ => none, nextBlock := 3, nextInst := 1 }

/-! ### Counterexamples -/

/-- C4 counterexample: the claim says `remove_inst` signals a
structural-precondition error when `inst` does not belong to the block's
list.  Here instruction 0 belongs to no list and block 0's list is empty,
yet the call returns normally (`isOk`) — no error is signaled. -/
theorem C4_counterexample :
    exSt1.blocks (Block.mk 0).idx = some exBd0 ∧ exBd0.head = none ∧ exBd0.tail = none ∧
    (Block.removeInst exSt1 ⟨0⟩ ⟨0⟩).isOk = true :=
  ⟨rfl, rfl, rfl, rfl⟩

/-- C5 counterexample: the claim says the failed call surfaces a typed,
recoverable result rather than terminating the process.  Here both calls on
a non-branch opcode terminate with a panic (`Res.terminated`, the model of
`panic!`), not a recoverable return. -/
theorem C5_counterexample :
    exSt1.insts (Inst.mk 0).idx = some exOther ∧ exOther.kind = .Other ∧
    (Block.addSuccessor exSt1 ⟨0⟩ ⟨0⟩ ⟨0⟩ true).terminated = true ∧
    (Block.removeSuccessor exSt1 ⟨0⟩ ⟨0⟩ ⟨0⟩ true).terminated = true :=
  ⟨rfl, rfl, rfl, rfl⟩

/-! ### Witnesses -/

theorem C7_dealloc_absent_noop_witness :
    exU.blocks (Block.mk 1).idx = none ∧
    Context.tryDeallocBlock exU ⟨1⟩ = (exU, none) :=
  ⟨rfl, C7_dealloc_absent_noop exU ⟨1⟩ rfl⟩

theorem C8_remove_ignores_edges_witness :
    Block.remove exAtt ⟨0⟩ [] = Block.remove exAtt ⟨0⟩ [⟨⟨0⟩, ⟨0⟩, true⟩] ∧
    (∀ bd f, exAtt.blocks (Block.mk 0).idx = some bd → bd.container = some f →
      Block.remove exAtt ⟨0⟩ [] = Func.removeBlock exAtt f ⟨0⟩) :=
  C8_remove_ignores_edges exAtt ⟨0⟩ [] [⟨⟨0⟩, ⟨0⟩, true⟩]

theorem C10_remove_unattached_panics_witness :
    exU.blocks (Block.mk 0).idx = some exBd0 ∧
    ((exBd0.container = none →
      Block.remove exU ⟨0⟩ [] = .fatal "called Option::unwrap() on a None value" exU) ∧
     (∀ f, exBd0.container = some f → Block.remove exU ⟨0⟩ [] = Func.removeBlock exU f ⟨0⟩)) :=
  ⟨rfl, C10_remove_unattached_panics exU ⟨0⟩ exBd0 [] rfl⟩

theorem C5_other_opcode_panics_witness :
    exSt1.insts (Inst.mk 0).idx = some exOther ∧ exOther.kind = .Other ∧
    (Block.addSuccessor exSt1 ⟨0⟩ ⟨0⟩ ⟨0⟩ false = .fatal "unavailble br" exSt1 ∧
     Block.removeSuccessor exSt1 ⟨0⟩ ⟨0⟩ ⟨0⟩ false = .fatal "unavailble br" exSt1) :=
  ⟨rfl, rfl, C5_other_opcode_panics exSt1 ⟨0⟩ ⟨0⟩ ⟨0⟩ exOther false rfl rfl⟩

/-- A two-way conditional branch that is not yet attached anywhere, used to
exercise `add_successor` from an empty successor set. -/
def exCBr2 : InstData :=
  { kind := .CondBr, succs := [⟨1⟩, ⟨2⟩], next := none, prev := none, container := none }

/-- A context with an empty block 0 and the unattached conditional branch. -/
def exSt2 : Context :=
  { blocks := upd (fun _ => none) 0 (some exBd0), insts := upd (fun _ => none) 0 (some exCBr2),
    funcs := fun _ => none, nextBlock := 1, nextInst := 1 }

theorem C2_add_successor_edges_witness :
    exSt2.insts (Inst.mk 0).idx = some exCBr2 ∧ exSt2.blocks (Block.mk 0).idx = some exBd0 ∧
    ((exCBr2.kind = .Br →
      ∃ st', Block.addSuccessor exSt2 ⟨0⟩ ⟨0⟩ ⟨0⟩ true = .ok st' () ∧
        st'.blocks (Block.mk 0).idx = some { exBd0 with successors := insert ⟨⟨0⟩, ⟨0⟩, false⟩ exBd0.successors } ∧
        (∀ k, k ≠ (Block.mk 0).idx → st'.blocks k = exSt2.blocks k) ∧ st'.insts = exSt2.insts) ∧
    (exCBr2.kind = .CondBr →
      ∃ st', Block.addSuccessor exSt2 ⟨0⟩ ⟨0⟩ ⟨0⟩ true = .ok st' () ∧
        st'.blocks (Block.mk 0).idx = some { exBd0 with successors := insert ⟨⟨0⟩, ⟨0⟩, true⟩ exBd0.successors } ∧
        (∀ k, k ≠ (Block.mk 0).idx → st'.blocks k = exSt2.blocks k) ∧ st'.insts = exSt2.insts) ∧
    (exCBr2.kind = .CondBr → exBd0.successors = ∅ →
      ∃ st1 st2, Block.addSuccessor exSt2 ⟨0⟩ ⟨0⟩ ⟨0⟩ true = .ok st1 () ∧
        Block.addSuccessor st1 ⟨0⟩ ⟨0⟩ ⟨0⟩ false = .ok st2 () ∧
        ∃ bd2, st2.blocks (Block.mk 0).idx = some bd2 ∧
          bd2.successors = {(⟨⟨0⟩, ⟨0⟩, true⟩ : BlockEdge), ⟨⟨0⟩, ⟨0⟩, false⟩} ∧
          bd2.successors.card = 2)) :=
  ⟨rfl, rfl, C2_add_successor_edges exSt2 ⟨0⟩ ⟨0⟩ ⟨0⟩ exCBr2 exBd0 true rfl rfl⟩

theorem C4_remove_inst_behavior_witness :
    (exListSt.blocks (Block.mk 0).idx = some exBdL ∧
     seg exListSt.insts ⟨0⟩ none exBdL.head (([⟨0⟩] : List Inst) ++ ⟨1⟩ :: []) (some ⟨1⟩) none ∧
     exBdL.tail = some ⟨1⟩ ∧
     (([⟨0⟩] : List Inst) ++ (⟨1⟩ : Inst) :: []).Nodup) ∧
    (∃ st', Block.removeInst exListSt ⟨0⟩ ⟨1⟩ = .ok st' () ∧
      st'.insts (Inst.mk 1).idx = none ∧
      st'.blocks (Block.mk 0).idx = some { exBdL with head := (([⟨0⟩] : List Inst) ++ []).head?, tail := (([⟨0⟩] : List Inst) ++ []).getLast? } ∧
      (∀ p dp, ([⟨0⟩] : List Inst).getLast? = some p → exListSt.insts p.idx = some dp →
        st'.insts p.idx = some { dp with next := ([] : List Inst).head? }) ∧
      (∀ n dn, ([] : List Inst).head? = some n → exListSt.insts n.idx = some dn →
        st'.insts n.idx = some { dn with prev := ([⟨0⟩] : List Inst).getLast? })) :=
  ⟨⟨rfl, ⟨rfl, exI0, rfl, rfl, rfl, ⟨rfl, exI1, rfl, rfl, rfl, rfl, rfl⟩⟩, rfl, by decide⟩,
   C4_remove_inst_behavior exListSt ⟨0⟩ ⟨1⟩ [⟨0⟩] [] exBdL (some ⟨1⟩) rfl
     ⟨rfl, exI0, rfl, rfl, rfl, ⟨rfl, exI1, rfl, rfl, rfl, rfl, rfl⟩⟩ rfl (by decide)⟩

theorem C6_remove_inst_invariant_witness :
    wf exListSt ⟨0⟩ (([] : List Inst) ++ ⟨0⟩ :: [⟨1⟩]) ∧
    (∃ st', Block.removeInst exListSt ⟨0⟩ ⟨0⟩ = .ok st' () ∧ wf st' ⟨0⟩ (([] : List Inst) ++ [⟨1⟩])) :=
  ⟨⟨exBdL, some ⟨1⟩, rfl, ⟨rfl, exI0, rfl, rfl, rfl, ⟨rfl, exI1, rfl, rfl, rfl, rfl, rfl⟩⟩,
     rfl, by decide⟩,
   C6_remove_inst_invariant exListSt ⟨0⟩ ⟨0⟩ [] [⟨1⟩]
     ⟨exBdL, some ⟨1⟩, rfl, ⟨rfl, exI0, rfl, rfl, rfl, ⟨rfl, exI1, rfl, rfl, rfl, rfl, rfl⟩⟩,
       rfl, by decide⟩⟩

theorem C3_remove_successor_br_witness :
    (exListSt.blocks (Block.mk 0).idx = some exBdL ∧
     seg exListSt.insts ⟨0⟩ none exBdL.head (([⟨0⟩] : List Inst) ++ [⟨1⟩]) (some ⟨1⟩) none ∧
     exBdL.tail = some ⟨1⟩ ∧ (([⟨0⟩] : List Inst) ++ [(⟨1⟩ : Inst)]).Nodup ∧
     exListSt.insts (Inst.mk 1).idx = some exI1 ∧ exI1.kind = .Br ∧
     exBdL.successors = {⟨⟨0⟩, ⟨1⟩, false⟩}) ∧
    (∃ st', Block.removeSuccessor exListSt ⟨0⟩ ⟨0⟩ ⟨1⟩ true = .ok st' () ∧
      (∃ bd', st'.blocks (Block.mk 0).idx = some bd' ∧ bd'.successors = ∅ ∧
        bd'.head = ([⟨0⟩] : List Inst).head? ∧ bd'.tail = ([⟨0⟩] : List Inst).getLast?) ∧
      st'.insts (Inst.mk 1).idx = none ∧
      wf st' ⟨0⟩ [⟨0⟩]) :=
  ⟨⟨rfl, ⟨rfl, exI0, rfl, rfl, rfl, ⟨rfl, exI1, rfl, rfl, rfl, rfl, rfl⟩⟩, rfl, by decide,
     rfl, rfl, rfl⟩,
   C3_remove_successor_br exListSt ⟨0⟩ ⟨0⟩ ⟨1⟩ [⟨0⟩] exBdL (some ⟨1⟩) exI1 true rfl
     ⟨rfl, exI0, rfl, rfl, rfl, ⟨rfl, exI1, rfl, rfl, rfl, rfl, rfl⟩⟩ rfl (by decide) rfl rfl rfl⟩

theorem C1_condbr_downgrade_witness :
    (exC1St.blocks (Block.mk 0).idx = some exBdC ∧
     seg exC1St.insts ⟨0⟩ none exBdC.head (([] : List Inst) ++ ⟨0⟩ :: []) (some ⟨0⟩) none ∧
     exBdC.tail = some ⟨0⟩ ∧ (([] : List Inst) ++ (⟨0⟩ : Inst) :: []).Nodup ∧
     exC1St.insts (Inst.mk 0).idx = some exCBr ∧ exCBr.kind = .CondBr ∧
     exCBr.succs = [⟨1⟩, ⟨2⟩] ∧
     exBdC.successors = {⟨⟨1⟩, ⟨0⟩, true⟩, ⟨⟨2⟩, ⟨0⟩, false⟩} ∧
     exC1St.insts exC1St.nextInst = none) ∧
    (∃ st', Block.removeSuccessor exC1St ⟨0⟩ ⟨1⟩ ⟨0⟩ true = .ok st' () ∧
      (∃ bd', st'.blocks (Block.mk 0).idx = some bd' ∧
        bd'.successors = {⟨⟨2⟩, Inst.mk 1, false⟩}) ∧
      Inst.mk 1 ≠ (⟨0⟩ : Inst) ∧
      st'.insts (Inst.mk 0).idx = none ∧
      (∃ dn, st'.insts (Inst.mk 1).idx = some dn ∧ dn.kind = .Br ∧ dn.succs = [⟨2⟩]) ∧
      wf st' ⟨0⟩ (([] : List Inst) ++ Inst.mk 1 :: [])) :=
  ⟨⟨rfl, ⟨rfl, exCBr, rfl, rfl, rfl, rfl, rfl⟩, rfl, by decide, rfl, rfl, rfl, rfl, rfl⟩,
   C1_condbr_downgrade exC1St ⟨0⟩ ⟨1⟩ ⟨2⟩ ⟨0⟩ [] [] exBdC (some ⟨0⟩) exCBr true rfl
     ⟨rfl, exCBr, rfl, rfl, rfl, rfl, rfl⟩ rfl (by decide) rfl rfl rfl rfl rfl⟩

end NkuIr
